import Mathlib

/-!
Shallow embedding of the candidate extraction-and-scoring engine of
`src/cv_triage_pipeline.py`.  Text is modelled as `List Char` (named `Str`
below); Python's `re` searches used by the pipeline are embedded by a small
backtracking matcher over character-class/word-boundary elements, which is
all the two patterns in the source use.
-/

namespace CvTriage

/-- Text as a list of characters (Python `str`). -/
abbrev Str := List Char

/-- Python's `\s` / `str.strip()` whitespace characters (ASCII). -/
def pySpace (c : Char) : Bool :=
  c = ' ' || c = '\t' || c = '\n' || c = '\r' || c = '\x0b' || c = '\x0c'

/-- Python `str.lower()` (per-character, ASCII). -/
def lowerS (s : Str) : Str := s.map Char.toLower

/-- Python `str.strip()`: drop leading and trailing whitespace. -/
def pyStrip (s : Str) : Str :=
  ((s.dropWhile pySpace).reverse.dropWhile pySpace).reverse

/-- Test `hasPrefixCh n h`: the needle `n` is an initial segment of `h`. -/
def hasPrefixCh : Str → Str → Bool
  | [], _ => true
  | _ :: _, [] => false
  | a :: as, b :: bs => a = b && hasPrefixCh as bs

/-- Test `hasSubCh n h`: `n` occurs as a contiguous substring of `h`
(Python's `n in h` on strings). -/
def hasSubCh : Str → Str → Bool
  | n, [] => n.isEmpty
  | n, c :: rest => hasPrefixCh n (c :: rest) || hasSubCh n rest

/-- Loop body of `count_relevant_keywords` (source lines 152-163): walk the
keyword list in order, counting and collecting the keywords whose lowercase
form occurs in the lowercased text. -/
def count_go (textLower : Str) : List Str → Nat × List Str
  | [] => (0, [])
  | k :: ks =>
    let r := count_go textLower ks
    if hasSubCh (lowerS k) textLower then (r.1 + 1, k :: r.2) else r

/-- Embedding of `count_relevant_keywords(text, keywords)` from the source. -/
def count_relevant_keywords (text : Str) (keywords : List Str) : Nat × List Str :=
  count_go (lowerS text) keywords

/-! A small matcher for the two `re` patterns of `extract_contact_info`

The source's two regular expressions consist only of character classes
(with greedy counted repetition), literal characters (a class of size one)
and `\b` word boundaries; the one optional group in the phone pattern is
expanded into a two-branch alternation.  `matchSeq` implements Python's
greedy matching with backtracking for such patterns. -/

/-- One element of a pattern: a character class repeated between `lo` and
`hi` times (`none` = unbounded, matched greedily), or a `\b` word boundary. -/
inductive RElem where
  | cls (p : Char → Bool) (lo : Nat) (hi : Option Nat)
  | wb

/-- Python's `\w` (ASCII). -/
def isWordChar (c : Char) : Bool := c.isAlphanum || c = '_'

def isWordOpt : Option Char → Bool
  | none => false
  | some c => isWordChar c

/-- Boundary `\b`: exactly one of the two neighbouring positions holds a word char. -/
def wordBoundary (prev : Option Char) (next : Option Char) : Bool :=
  isWordOpt prev != isWordOpt next

/-- Backtracking loop for a greedy class repetition: try `f k`, then
`f (k-1)`, ... down to `f lo`. -/
def tryK (f : Nat → Option Nat) (lo : Nat) : Nat → Option Nat
  | 0 => f 0
  | k + 1 =>
    match f (k + 1) with
    | some n => some n
    | none => if lo ≤ k then tryK f lo k else none

/-- Match a pattern at the start of `cs` (with `prev` the character just
before the current position, for `\b`); returns the number of characters
consumed by the leftmost-greedy match, like Python's `re` at a fixed
starting position. -/
def matchSeq : List RElem → Option Char → Str → Option Nat
  | [], _, _ => some 0
  | .wb :: pat, prev, cs =>
    if wordBoundary prev cs.head? then matchSeq pat prev cs else none
  | .cls p lo hi :: pat, prev, cs =>
    let run := (cs.takeWhile p).length
    let top := match hi with | none => run | some h => min h run
    if lo ≤ top then
      tryK (fun k =>
        let prev' := if k = 0 then prev else some (cs.getD (k - 1) ' ')
        (matchSeq pat prev' (cs.drop k)).map (fun n => k + n)) lo top
    else none

/-- Search like `re.search`: try the matcher at each position from the left. -/
def searchGo (m : Option Char → Str → Option Nat) : Option Char → Str → Option Str
  | prev, [] => match m prev [] with | some _ => some [] | none => none
  | prev, c :: rest =>
    match m prev (c :: rest) with
    | some n => some ((c :: rest).take n)
    | none => searchGo m (some c) rest

/-- Class `[A-Za-z0-9._%+-]` (local part of the email pattern). -/
def isLocalChar (c : Char) : Bool :=
  c.isAlpha || c.isDigit || c = '.' || c = '_' || c = '%' || c = '+' || c = '-'

/-- Class `[A-Za-z0-9.-]` (domain part of the email pattern). -/
def isDomainChar (c : Char) : Bool := c.isAlpha || c.isDigit || c = '.' || c = '-'

/-- Class `[A-Z|a-z]` — the literal class of the source, which includes the bar character. -/
def isTldChar (c : Char) : Bool := c.isAlpha || c = '|'

/-- Pattern `\b[A-Za-z0-9._%+-]+@[A-Za-z0-9.-]+\.[A-Z|a-z]{2,}\b` (source line 104). -/
def emailPattern : List RElem :=
  [.wb, .cls isLocalChar 1 none, .cls (· = '@') 1 (some 1),
   .cls isDomainChar 1 none, .cls (· = '.') 1 (some 1),
   .cls isTldChar 2 none, .wb]

/-- Class `[-.\s]` in the phone pattern. -/
def isSepChar (c : Char) : Bool := c = '-' || c = '.' || pySpace c

/-- Elements shared by both branches of the phone pattern:
`\(?\d{3}\)?[-.\s]?\d{3}[-.\s]?\d{4}\b`. -/
def phoneTail : List RElem :=
  [.cls (· = '(') 0 (some 1), .cls Char.isDigit 3 (some 3), .cls (· = ')') 0 (some 1),
   .cls isSepChar 0 (some 1), .cls Char.isDigit 3 (some 3),
   .cls isSepChar 0 (some 1), .cls Char.isDigit 4 (some 4), .wb]

/-- Phone pattern (source line 105) with the optional country-code group
`(?:\+\d{1,3}[-.\s]?)?` present. -/
def phonePattern1 : List RElem :=
  .wb :: .cls (· = '+') 1 (some 1) :: .cls Char.isDigit 1 (some 3) ::
    .cls isSepChar 0 (some 1) :: phoneTail

/-- Phone pattern with the optional country-code group absent. -/
def phonePattern2 : List RElem := .wb :: phoneTail

/-- Embedding of `re.search(email_pattern, text)`, returning the matched substring. -/
def emailSearch (text : Str) : Option Str :=
  searchGo (fun p cs => matchSeq emailPattern p cs) none text

/-- Embedding of `re.search(phone_pattern, text)`: the optional group is tried
greedily (present first), mirroring Python's backtracking. -/
def phoneSearch (text : Str) : Option Str :=
  searchGo (fun p cs => matchSeq phonePattern1 p cs <|> matchSeq phonePattern2 p cs) none text

/-! Embedding of `extract_contact_info` (source lines 101-124) -/

/-- Python `str.split('\n')`: split at every newline, keeping empty segments. -/
def splitOnNlGo : Str → Str → List Str
  | acc, [] => [acc.reverse]
  | acc, c :: rest =>
    if c = '\n' then acc.reverse :: splitOnNlGo [] rest else splitOnNlGo (c :: acc) rest

def splitOnNl (s : Str) : List Str := splitOnNlGo [] s

/-- Python `str.split()` with no arguments: whitespace-separated words, empties
dropped.  `cur` holds the current word reversed. -/
def pyWordsGo : Str → Str → List Str
  | cur, [] => if cur.isEmpty then [] else [cur.reverse]
  | cur, c :: rest =>
    if pySpace c then
      if cur.isEmpty then pyWordsGo [] rest else cur.reverse :: pyWordsGo [] rest
    else pyWordsGo (c :: cur) rest

def pyWords (s : Str) : List Str := pyWordsGo [] s

/-- Python `' '.join(ws)`. -/
def joinSpace : List Str → Str
  | [] => []
  | [w] => w
  | w :: ws => w ++ ' ' :: joinSpace ws

/-- Python `', '.join(ws)`. -/
def joinCommaSpace : List Str → Str
  | [] => []
  | [w] => w
  | w :: ws => w ++ ',' :: ' ' :: joinCommaSpace ws

/-- Embedding of `extract_contact_info(text)`: first email-pattern match, first
phone-pattern match, and as name the first one-to-three words of the first
of the first five lines that is non-blank and matches neither pattern. -/
def extract_contact_info (text : Str) : Str × Str × Str :=
  let email := (emailSearch text).getD []
  let phone := (phoneSearch text).getD []
  let lines := splitOnNl (pyStrip text)
  let name :=
    match (lines.take 5).find?
        (fun l => !(pyStrip l).isEmpty && (emailSearch l).isNone && (phoneSearch l).isNone) with
    | some l => joinSpace ((pyWords (pyStrip l)).take 3)
    | none => []
  (name, email, phone)

/-! Embedding of `extract_experience_and_skills` (source lines 127-149) -/

/-- The alternation of the section-splitting regex (source line 130),
lowercased; no alternative is a prefix of another, so first-match order is
immaterial. -/
def headerNames : List Str :=
  ["experience".data, "skills".data, "education".data, "work history".data,
   "employment".data, "professional experience".data]

/-- Length of the header token matched case-insensitively at the start of
`cs`, if any. -/
def headerLen (cs : Str) : Option Nat :=
  headerNames.findSome? (fun h => if hasPrefixCh h (lowerS cs) then some h.length else none)

/-- Match helper: after a newline, try to match `\s*(?:HEADER)(?:\s*|:)` on the remainder:
greedy leading whitespace, a header token, then greedy trailing whitespace
(the `:` alternative of the source regex is dead, since `\s*` always
succeeds first).  Returns the text after the whole match. -/
def headerAfterNl (rest : Str) : Option Str :=
  let m := rest.dropWhile pySpace
  match headerLen m with
  | some hl => some ((m.drop hl).dropWhile pySpace)
  | none => none

/-- Embedding of `re.split` with the section regex: scan for `'\n'` followed by a header
match; each match is a boundary.  `fuel` starts at the text length and
bounds the recursion (every step consumes at least one character, so the
`fuel = 0` branch with text left over is never reached from
`pySplitSections`). -/
def splitSecGoF : Nat → Str → Str → List Str
  | _, acc, [] => [acc.reverse]
  | 0, acc, cs => [acc.reverse ++ cs]
  | fuel + 1, acc, c :: rest =>
    if c = '\n' then
      match headerAfterNl rest with
      | some rest' => acc.reverse :: splitSecGoF fuel [] rest'
      | none => splitSecGoF fuel (c :: acc) rest
    else splitSecGoF fuel (c :: acc) rest

def pySplitSections (text : Str) : List Str := splitSecGoF text.length [] text

/-- Embedding of `re.search(r'SKILLS|QUALIFICATIONS', s, re.IGNORECASE)` of source
line 141: case-insensitive substring containment. -/
def qualifies (s : Str) : Bool :=
  hasSubCh "skills".data (lowerS s) || hasSubCh "qualifications".data (lowerS s)

/-- The source loop (lines 140-143): the segment following the first
boundary whose preceding segment qualifies. -/
def findSkillsSeg : List Str → Option Str
  | a :: b :: rest => if qualifies a then some b else findSkillsSeg (b :: rest)
  | _ => none

/-- Embedding of `extract_experience_and_skills(text, keywords)`; the `keywords`
parameter is unused in the source as well. -/
def extract_experience_and_skills (text : Str) (keywords : List Str) : Str × Str :=
  let sections := pySplitSections text
  let experience :=
    match sections with
    | _ :: s1 :: _ => (pyStrip s1).take 500
    | _ => []
  let skills0 :=
    match findSkillsSeg sections with
    | some seg => (pyStrip seg).take 500
    | none => []
  let skills :=
    if skills0.isEmpty ∧ 2 < sections.length then (pyStrip (sections.getLastD [])).take 500
    else skills0
  (experience, skills)

/-! Embedding of `process_resume` and `monitor_input_folder` -/

structure ResumeRecord where
  name : Str
  email : Str
  phone : Str
  experience : Str
  skills : Str
  keyword_count : Nat
  found_keywords : Str
  is_relevant : Bool
  file_name : Str
  deriving DecidableEq

/-- Embedding of `process_resume(pdf_path, keywords)` (source lines 166-202), with the
already-extracted text as input (text extraction is an external
collaborator; an unreadable document yields the empty string). -/
def process_resume (file_name : Str) (text : Str) (keywords : List Str) :
    Option ResumeRecord :=
  if text.isEmpty then none
  else
    let c := extract_contact_info text
    let es := extract_experience_and_skills text keywords
    let kc := count_relevant_keywords text keywords
    some
      { name := c.1, email := c.2.1, phone := c.2.2
        experience := es.1, skills := es.2
        keyword_count := kc.1
        found_keywords := joinCommaSpace kc.2
        is_relevant := decide (2 ≤ kc.1)
        file_name := file_name }

/-- The processing loop of `monitor_input_folder` (source lines 456-461):
each document is a (file name, extracted text) pair; records are appended
exactly for the documents `process_resume` accepts. -/
def monitor_input_folder (docs : List (Str × Str)) (keywords : List Str) :
    List ResumeRecord :=
  docs.filterMap (fun d => process_resume d.1 d.2 keywords)

/-! Embedding of `classify_candidates` (source lines 305-383) -/

structure SurveyResponse where
  email : Str
  availability : Str
  courses : Str
  visa : Str
  deriving DecidableEq

/-- One row of the merged frame: the resume columns plus the three survey
columns, each `none` when the cell is missing (`NaN`, so that
`pd.notna` is `false`). -/
structure MergedRow where
  resume : ResumeRecord
  availability : Option Str
  courses : Option Str
  visa : Option Str
  deriving DecidableEq

/-- Branch for `survey_df is None or survey_df.empty` (source lines
311-315): every survey column is filled with the string `"Unknown"`. -/
def unknownRows (resumes : List ResumeRecord) : List MergedRow :=
  resumes.map (fun r =>
    ⟨r, some "Unknown".data, some "Unknown".data, some "Unknown".data⟩)

/-- Embedding of `pd.merge(resumes_df, survey_df, on="email", how="left")` (source line
309): left order preserved, one output row per matching survey row, and a
row with missing (`NaN`) survey cells when no survey row matches. -/
def joinRows (ss : List SurveyResponse) : List ResumeRecord → List MergedRow
  | [] => []
  | r :: rest =>
    (if (ss.filter (fun s => s.email == r.email)).isEmpty then
      [⟨r, none, none, none⟩]
     else
      (ss.filter (fun s => s.email == r.email)).map
        (fun s => ⟨r, some s.availability, some s.courses, some s.visa⟩))
      ++ joinRows ss rest

/-- The merge step of `classify_candidates` (source lines 308-315). -/
def merge_rows (resumes : List ResumeRecord) (survey : Option (List SurveyResponse)) :
    List MergedRow :=
  match survey with
  | some ss => if ss.isEmpty then unknownRows resumes else joinRows ss resumes
  | none => unknownRows resumes

/-- Availability signal of `calculate_priority` (source lines 328-337). -/
def availabilityScore (a : Option Str) : Nat :=
  match a with
  | none => 0
  | some v =>
    let av := lowerS v
    if av = "full availability".data then 4
    else if av = "morning".data then 3
    else if av = "night".data then 1
    else 1

/-- Course/training signal of `calculate_priority` (source lines 340-349). -/
def coursesScore (c : Option Str) : Nat :=
  match c with
  | none => 0
  | some v =>
    let cs := lowerS v
    if hasSubCh "food handling".data cs || hasSubCh "haccp".data cs then 3
    else if hasSubCh "food safety".data cs then 2
    else if hasSubCh "customer service".data cs then 2
    else if cs ≠ "none".data ∧ cs ≠ "unknown".data then 1
    else 0

/-- Visa signal of `calculate_priority` (source lines 352-365). -/
def visaScore (v : Option Str) : Nat :=
  match v with
  | none => 0
  | some x =>
    let vs := lowerS x
    if vs = "stamp 4".data then 3
    else if vs = "stamp 2".data then 1
    else if vs = "irish".data then 4
    else if vs = "ue".data then 3
    else if vs = "stamp 1g".data then 2
    else if vs = "stamp 1".data then 0
    else 0

/-- Embedding of `calculate_priority(row)` (source lines 318-367). -/
def calculate_priority (row : MergedRow) : Nat :=
  (if row.resume.is_relevant then 2 else 0)
    + min row.resume.keyword_count 5
    + availabilityScore row.availability
    + coursesScore row.courses
    + visaScore row.visa

/-- Embedding of `get_priority_level(score)` (source lines 373-379). -/
def get_priority_level (score : Nat) : String :=
  if 10 ≤ score then "High" else if 6 ≤ score then "Medium" else "Low"

structure ClassifiedCandidate where
  row : MergedRow
  priority_score : Nat
  priority : String
  deriving DecidableEq

/-- Embedding of `classify_candidates(resumes_df, survey_df)` (source lines 305-383). -/
def classify_candidates (resumes : List ResumeRecord)
    (survey : Option (List SurveyResponse)) : List ClassifiedCandidate :=
  (merge_rows resumes survey).map
    (fun m => ⟨m, calculate_priority m, get_priority_level (calculate_priority m)⟩)

/-! Spec-side models and sample inputs -/

/-- Modelled from the spec's words for the skills extraction: the segment
immediately following a split boundary whose preceding segment contains
SKILLS or QUALIFICATIONS; if no such boundary exists, the last segment of
the split.  Used to compare the spec's claim with the source behaviour. -/
def skillsSpecClaimed (sections : List Str) : Str :=
  match (sections.zip sections.tail).find? (fun ab => qualifies ab.1) with
  | some ab => (pyStrip ab.2).take 500
  | none => (pyStrip (sections.getLastD [])).take 500

/-- The amended description of the skills extraction: the fallback to the
last segment fires only when the chosen segment is empty AND the split
produced more than two segments; otherwise the skills text is empty. -/
def skillsSpecAmendedOf (sections : List Str) : Str :=
  let cand :=
    match (sections.zip sections.tail).find? (fun ab => qualifies ab.1) with
    | some ab => (pyStrip ab.2).take 500
    | none => []
  if cand.isEmpty ∧ 2 < sections.length then (pyStrip (sections.getLastD [])).take 500
  else cand

/-- A relevant résumé record with three keyword hits (end-to-end scenario 2
of the spec). -/
def sampleResume : ResumeRecord :=
  { name := [], email := "a@x.com".data, phone := [], experience := [], skills := []
    keyword_count := 3, found_keywords := [], is_relevant := true, file_name := [] }

/-- A survey row whose email matches no résumé in `[sampleResume]`. -/
def sampleSurvey : SurveyResponse :=
  { email := "b@y.com".data, availability := "morning".data
    courses := "none".data, visa := "irish".data }

/-! Theorems -/

theorem hasPrefixCh_iff (n h : Str) : hasPrefixCh n h = true ↔ ∃ t, n ++ t = h := by
  induction n generalizing h with
  | nil => simp [hasPrefixCh]
  | cons a as ih =>
    cases h with
    | nil => simp [hasPrefixCh]
    | cons b bs =>
      simp only [hasPrefixCh, Bool.and_eq_true, decide_eq_true_iff, ih, List.cons_append,
        List.cons.injEq]
      constructor
      · rintro ⟨rfl, t, rfl⟩; exact ⟨t, rfl, rfl⟩
      · rintro ⟨t, rfl, rfl⟩; exact ⟨rfl, t, rfl⟩

theorem hasSubCh_iff (n h : Str) : hasSubCh n h = true ↔ ∃ s t, s ++ n ++ t = h := by
  induction h with
  | nil =>
    simp only [hasSubCh, List.isEmpty_iff]
    constructor
    · rintro rfl; exact ⟨[], [], rfl⟩
    · rintro ⟨s, t, hst⟩
      rcases List.append_eq_nil.mp hst with ⟨hsn, ht⟩
      exact (List.append_eq_nil.mp hsn).2
  | cons c rest ih =>
    simp only [hasSubCh, Bool.or_eq_true, hasPrefixCh_iff, ih]
    constructor
    · rintro (⟨t, ht⟩ | ⟨s, t, hst⟩)
      · exact ⟨[], t, by simpa using ht⟩
      · exact ⟨c :: s, t, by simp [hst]⟩
    · rintro ⟨s, t, hst⟩
      cases s with
      | nil => exact Or.inl ⟨t, by simpa using hst⟩
      | cons a s' =>
        simp only [List.cons_append, List.cons.injEq] at hst
        exact Or.inr ⟨s', t, hst.2⟩

theorem count_go_spec (tl : Str) (ks : List Str) :
    (count_go tl ks).1 = (count_go tl ks).2.length ∧
    List.Sublist (count_go tl ks).2 ks ∧
    (∀ k, k ∈ (count_go tl ks).2 ↔ k ∈ ks ∧ hasSubCh (lowerS k) tl = true) := by
  induction ks with
  | nil => exact ⟨rfl, List.Sublist.refl _, by simp [count_go]⟩
  | cons k ks ih =>
    obtain ⟨ih1, ih2, ih3⟩ := ih
    by_cases hm : hasSubCh (lowerS k) tl = true
    · have he : count_go tl (k :: ks) = ((count_go tl ks).1 + 1, k :: (count_go tl ks).2) := by
        simp [count_go, hm]
      rw [he]
      refine ⟨by simp [ih1], List.Sublist.cons₂ _ ih2, fun k' => ?_⟩
      simp only [List.mem_cons, ih3 k']
      constructor
      · rintro (rfl | ⟨hk, hs⟩)
        · exact ⟨Or.inl rfl, hm⟩
        · exact ⟨Or.inr hk, hs⟩
      · rintro ⟨rfl | hk, hs⟩
        · exact Or.inl rfl
        · exact Or.inr ⟨hk, hs⟩
    · have he : count_go tl (k :: ks) = count_go tl ks := by
        simp [count_go, hm]
      rw [he]
      refine ⟨ih1, List.Sublist.cons _ ih2, fun k' => ?_⟩
      rw [ih3 k']
      simp only [List.mem_cons]
      constructor
      · rintro ⟨hk, hs⟩; exact ⟨Or.inr hk, hs⟩
      · rintro ⟨rfl | hk, hs⟩
        · exact absurd hs hm
        · exact ⟨hk, hs⟩

/-- Claim C6: for every keyword list and text, the returned count equals the
number of matched keywords, the matched keywords form a subsequence of the
keyword list (so they appear in keyword-set iteration order and are a subset
of it), and a keyword is matched exactly when its lowercase form occurs as a
contiguous substring of the lowercased text. -/
theorem count_keywords_matched_spec (text : Str) (kws : List Str) :
    (count_relevant_keywords text kws).1 = (count_relevant_keywords text kws).2.length ∧
    List.Sublist (count_relevant_keywords text kws).2 kws ∧
    ∀ k, k ∈ (count_relevant_keywords text kws).2 ↔
      k ∈ kws ∧ ∃ s u, s ++ lowerS k ++ u = lowerS text := by
  obtain ⟨h1, h2, h3⟩ := count_go_spec (lowerS text) kws
  exact ⟨h1, h2, fun k => by
    rw [show count_relevant_keywords text kws = count_go (lowerS text) kws from rfl,
      h3 k, hasSubCh_iff]⟩

/-- Witness for C6 at a concrete text and keyword list. -/
theorem count_keywords_matched_spec_witness :
    "cook".data ∈ (count_relevant_keywords "A Cook and cashier".data
      ["cook".data, "fast food".data, "cashier".data]).2 :=
  ((count_keywords_matched_spec "A Cook and cashier".data
      ["cook".data, "fast food".data, "cashier".data]).2.2 "cook".data).mpr
    ⟨by decide, ⟨"a ".data, " and cashier".data, by decide⟩⟩

/-- Claim C7: every record built by `process_resume` has `is_relevant` true
exactly when its keyword count is at least 2. -/
theorem is_relevant_iff_two_keywords (f t : Str) (kws : List Str) (rec : ResumeRecord)
    (h : process_resume f t kws = some rec) :
    rec.is_relevant = true ↔ 2 ≤ rec.keyword_count := by
  unfold process_resume at h
  split at h
  · simp at h
  · dsimp only at h
    rw [Option.some_inj] at h
    subst h
    simp [decide_eq_true_iff]

/-- Witness for C7: a concrete two-keyword résumé (boundary case count = 2). -/
theorem is_relevant_iff_two_keywords_witness :
    ∃ rec, process_resume [] "A cook and cashier CV".data ["cook".data, "cashier".data]
        = some rec ∧ rec.keyword_count = 2 ∧
      (rec.is_relevant = true ↔ 2 ≤ rec.keyword_count) := by
  have hEq : process_resume [] "A cook and cashier CV".data ["cook".data, "cashier".data]
      = some ⟨"A cook and".data, [], [], [], [], 2, "cook, cashier".data, true, []⟩ := by
    decide
  exact ⟨_, hEq, rfl, is_relevant_iff_two_keywords _ _ _ _ hEq⟩

/-- Claim C4: the classifier thresholds — score at least 10 yields High,
between 6 and 9 yields Medium, below 6 yields Low. -/
theorem get_priority_level_thresholds (s : Nat) :
    (10 ≤ s → get_priority_level s = "High") ∧
    (6 ≤ s → s < 10 → get_priority_level s = "Medium") ∧
    (s < 6 → get_priority_level s = "Low") := by
  unfold get_priority_level
  refine ⟨fun h => ?_, fun h1 h2 => ?_, fun h => ?_⟩
  · rw [if_pos h]
  · rw [if_neg (by omega), if_pos h1]
  · rw [if_neg (by omega), if_neg (by omega)]

/-- Witness for C4 at the four boundary scores named by the spec. -/
theorem get_priority_level_thresholds_witness :
    get_priority_level 10 = "High" ∧ get_priority_level 9 = "Medium" ∧
    get_priority_level 6 = "Medium" ∧ get_priority_level 5 = "Low" :=
  ⟨(get_priority_level_thresholds 10).1 (by decide),
   (get_priority_level_thresholds 9).2.1 (by decide) (by decide),
   (get_priority_level_thresholds 6).2.1 (by decide) (by decide),
   (get_priority_level_thresholds 5).2.2 (by decide)⟩

theorem availabilityScore_le (a : Option Str) : availabilityScore a ≤ 4 := by
  rcases a with _ | v
  · simp [availabilityScore]
  · simp only [availabilityScore]
    split_ifs <;> omega

theorem coursesScore_le (c : Option Str) : coursesScore c ≤ 3 := by
  rcases c with _ | v
  · simp [coursesScore]
  · simp only [coursesScore]
    split_ifs <;> omega

theorem visaScore_le (v : Option Str) : visaScore v ≤ 4 := by
  rcases v with _ | x
  · simp [visaScore]
  · simp only [visaScore]
    split_ifs <;> omega

/-- Claim C5: the scoring engine is a total function of the joined row whose
value is a non-negative integer never exceeding 2+5+4+3+4 = 18. -/
theorem calculate_priority_bounds (row : MergedRow) :
    0 ≤ calculate_priority row ∧ calculate_priority row ≤ 18 := by
  refine ⟨Nat.zero_le _, ?_⟩
  have h1 : (if row.resume.is_relevant then 2 else 0) ≤ 2 := by split <;> omega
  have h2 : min row.resume.keyword_count 5 ≤ 5 := Nat.min_le_right _ _
  have h3 := availabilityScore_le row.availability
  have h4 := coursesScore_le row.courses
  have h5 := visaScore_le row.visa
  unfold calculate_priority
  omega

/-- Claim C1 (divergence): the availability signal gives +4, +3, +1 and +1
as the spec table says, but the sentinel string `"Unknown"` falls into the
default branch and scores +1, not the claimed +0 (only a missing/NaN cell
scores 0). -/
theorem availability_unknown_scores_one :
    availabilityScore (some "Unknown".data) = 1 ∧
    availabilityScore none = 0 ∧
    availabilityScore (some "full availability".data) = 4 ∧
    availabilityScore (some "FULL Availability".data) = 4 ∧
    availabilityScore (some "morning".data) = 3 ∧
    availabilityScore (some "night".data) = 1 ∧
    availabilityScore (some "weekend".data) = 1 := by decide

/-- Claim C2 (divergence): with no survey source, a relevant résumé with
three keyword hits scores 2+3+1+0+0 = 6 (the `"Unknown"` availability
sentinel contributes +1) and is classified Medium, not the claimed 5/Low. -/
theorem no_survey_scenario_scores_medium :
    classify_candidates [sampleResume] none =
      [⟨⟨sampleResume, some "Unknown".data, some "Unknown".data, some "Unknown".data⟩,
        6, "Medium"⟩] := by decide

theorem joinRows_mem_of_mem (ss : List SurveyResponse) (resumes : List ResumeRecord)
    (r : ResumeRecord) (hr : r ∈ resumes) :
    ∃ m, m ∈ joinRows ss resumes ∧ m.resume = r := by
  induction resumes with
  | nil => cases hr
  | cons a rest ih =>
    rcases List.mem_cons.mp hr with rfl | hr'
    · by_cases he : (ss.filter (fun s => s.email == r.email)).isEmpty = true
      · refine ⟨⟨r, none, none, none⟩, ?_, rfl⟩
        simp [joinRows, he]
      · have hne2 : ss.filter (fun s => s.email == r.email) ≠ [] := by
          intro hnil; rw [hnil] at he; exact he rfl
        rcases List.exists_mem_of_ne_nil _ hne2 with ⟨s0, hs0⟩
        refine ⟨⟨r, some s0.availability, some s0.courses, some s0.visa⟩, ?_, rfl⟩
        have hef : (ss.filter (fun s => s.email == r.email)).isEmpty = false :=
          Bool.not_eq_true _ ▸ he
        simp only [joinRows, hef, Bool.false_eq_true, if_false, List.mem_append]
        exact Or.inl (List.mem_map.mpr ⟨s0, hs0, rfl⟩)
    · obtain ⟨m, hm, hmr⟩ := ih hr'
      exact ⟨m, by simp [joinRows, List.mem_append, hm], hmr⟩

theorem joinRows_length_ge (ss : List SurveyResponse) (resumes : List ResumeRecord) :
    resumes.length ≤ (joinRows ss resumes).length := by
  induction resumes with
  | nil => simp [joinRows]
  | cons a rest ih =>
    simp only [joinRows, List.length_append, List.length_cons]
    by_cases he : (ss.filter (fun s => s.email == a.email)).isEmpty = true
    · simp only [he, if_true, List.length_cons, List.length_nil]
      omega
    · have hef : (ss.filter (fun s => s.email == a.email)).isEmpty = false :=
        Bool.not_eq_true _ ▸ he
      rw [if_neg (by simp [hef])]
      have hne2 : ss.filter (fun s => s.email == a.email) ≠ [] := by
        intro hnil; rw [hnil] at he; exact he rfl
      have h1 : 1 ≤ ((ss.filter (fun s => s.email == a.email)).map
          (fun s => (⟨a, some s.availability, some s.courses, some s.visa⟩ : MergedRow))).length := by
        rw [List.length_map]
        exact List.length_pos.mpr hne2
      omega

/-- Claim C3, amended: the merge step is a left join on email — every
résumé appears at least once and the output is no shorter than the input;
with the survey source entirely absent every row carries the sentinel string
`"Unknown"` in all three survey fields; but a résumé matching no survey row
gets missing (`NaN`) survey cells, not the string `"Unknown"`. -/
theorem merge_left_join_amended :
    (∀ resumes survey r, r ∈ resumes →
      ∃ m, m ∈ merge_rows resumes survey ∧ m.resume = r) ∧
    (∀ resumes survey, resumes.length ≤ (merge_rows resumes survey).length) ∧
    (∀ resumes m, m ∈ merge_rows resumes none →
      m.availability = some "Unknown".data ∧ m.courses = some "Unknown".data ∧
        m.visa = some "Unknown".data) ∧
    (∀ resumes ss r, r ∈ resumes → ss ≠ [] →
      (∀ s, s ∈ ss → s.email ≠ r.email) →
      (⟨r, none, none, none⟩ : MergedRow) ∈ merge_rows resumes (some ss)) := by
  refine ⟨?_, ?_, ?_, ?_⟩
  · intro resumes survey r hr
    match survey with
    | none =>
      exact ⟨⟨r, some "Unknown".data, some "Unknown".data, some "Unknown".data⟩,
        List.mem_map.mpr ⟨r, hr, rfl⟩, rfl⟩
    | some ss =>
      by_cases hss : ss.isEmpty = true
      · refine ⟨⟨r, some "Unknown".data, some "Unknown".data, some "Unknown".data⟩, ?_, rfl⟩
        simp only [merge_rows, hss, if_true]
        exact List.mem_map.mpr ⟨r, hr, rfl⟩
      · have hsf : ss.isEmpty = false := Bool.not_eq_true _ ▸ hss
        obtain ⟨m, hm, hmr⟩ := joinRows_mem_of_mem ss resumes r hr
        refine ⟨m, ?_, hmr⟩
        simpa only [merge_rows, hsf, Bool.false_eq_true, if_false] using hm
  · intro resumes survey
    match survey with
    | none => simp [merge_rows, unknownRows]
    | some ss =>
      by_cases hss : ss.isEmpty = true
      · simp [merge_rows, hss, unknownRows]
      · have hsf : ss.isEmpty = false := Bool.not_eq_true _ ▸ hss
        simpa only [merge_rows, hsf, Bool.false_eq_true, if_false] using
          joinRows_length_ge ss resumes
  · intro resumes m hm
    obtain ⟨r, _, rfl⟩ := List.mem_map.mp hm
    exact ⟨rfl, rfl, rfl⟩
  · intro resumes ss r hr hne hnomatch
    have hfilter : ss.filter (fun s => s.email == r.email) = [] := by
      refine List.filter_eq_nil_iff.mpr (fun s hs => ?_)
      simpa using hnomatch s hs
    have hss : ss.isEmpty = false := by
      cases ss with
      | nil => exact absurd rfl hne
      | cons _ _ => rfl
    simp only [merge_rows, hss, Bool.false_eq_true, if_false]
    clear hne hnomatch hss
    induction resumes with
    | nil => cases hr
    | cons a rest ih =>
      rcases List.mem_cons.mp hr with rfl | hr'
      · simp [joinRows, hfilter]
      · simp only [joinRows, List.mem_append]
        exact Or.inr (ih hr')

/-- Witness for C3's amended statement at concrete inputs. -/
theorem merge_left_join_amended_witness :
    (∃ m, m ∈ merge_rows [sampleResume] (some [sampleSurvey]) ∧ m.resume = sampleResume) ∧
    (⟨sampleResume, none, none, none⟩ : MergedRow) ∈
      merge_rows [sampleResume] (some [sampleSurvey]) :=
  ⟨merge_left_join_amended.1 [sampleResume] (some [sampleSurvey]) sampleResume (by decide),
   merge_left_join_amended.2.2.2 [sampleResume] [sampleSurvey] sampleResume
     (by decide) (by decide) (by decide)⟩

/-- Counterexample to C3 as stated: a résumé whose email matches no survey
row gets a missing (`NaN`) availability cell, not the string `"Unknown"`. -/
theorem merge_unmatched_counterexample :
    ¬ (∀ m, m ∈ merge_rows [sampleResume] (some [sampleSurvey]) →
        m.availability = some "Unknown".data) := by decide

/-- Claim C9: a document whose extraction yielded no text is skipped — the
batch result is the same as if the document were absent, the rest of the
batch is still processed, and `process_resume` signals the skip with
`none`. -/
theorem unreadable_doc_skipped (kws : List Str) (f : Str) (pre post : List (Str × Str)) :
    monitor_input_folder (pre ++ (f, ([] : Str)) :: post) kws =
      monitor_input_folder (pre ++ post) kws ∧
    process_resume f [] kws = none := by
  refine ⟨?_, rfl⟩
  unfold monitor_input_folder
  rw [List.filterMap_append, List.filterMap_append, List.filterMap_cons]
  rfl

theorem findSkillsSeg_eq_zip (ss : List Str) :
    findSkillsSeg ss =
      ((ss.zip ss.tail).find? (fun ab => qualifies ab.1)).map (fun ab => ab.2) := by
  induction ss with
  | nil => rfl
  | cons a rest ih =>
    cases rest with
    | nil => rfl
    | cons b rest' =>
      by_cases hq : qualifies a = true
      · simp [findSkillsSeg, List.find?_cons, hq]
      · have hqf : qualifies a = false := Bool.not_eq_true _ ▸ hq
        simp only [findSkillsSeg, hqf, Bool.false_eq_true, if_false]
        rw [ih]
        simp [List.find?_cons, hqf]

/-- Claim C8, amended: both extracted sections are at most 500 characters,
and the skills text follows the amended description: the (stripped,
truncated) segment after the first boundary whose preceding segment contains
SKILLS or QUALIFICATIONS, falling back to the last segment only when that
yields an empty string and the split produced more than two segments, and
empty otherwise. -/
theorem section_extractor_amended (text : Str) (kws : List Str) :
    (extract_experience_and_skills text kws).1.length ≤ 500 ∧
    (extract_experience_and_skills text kws).2.length ≤ 500 ∧
    (extract_experience_and_skills text kws).2 = skillsSpecAmendedOf (pySplitSections text) := by
  have hz := findSkillsSeg_eq_zip (pySplitSections text)
  unfold extract_experience_and_skills skillsSpecAmendedOf
  dsimp only
  rw [hz]
  refine ⟨?_, ?_, ?_⟩
  · split
    · simp only [List.length_take]; omega
    · simp
  · cases hf : (((pySplitSections text).zip (pySplitSections text).tail).find?
        (fun ab => qualifies ab.1)) with
    | none =>
      simp only [Option.map_none']
      split_ifs <;> simp only [List.length_take, List.length_nil] <;> omega
    | some ab =>
      simp only [Option.map_some']
      split_ifs <;> simp only [List.length_take, List.length_nil] <;> omega
  · cases hf : (((pySplitSections text).zip (pySplitSections text).tail).find?
        (fun ab => qualifies ab.1)) <;> rfl

/-- Counterexample to C8 as stated: on `"abc\nEXPERIENCE\ndef"` the split
is `["abc", "def"]` and no segment before a boundary mentions SKILLS or
QUALIFICATIONS, so the claimed fallback would return the last segment
`"def"`; the source returns the empty string because the fallback only
fires when the split has more than two segments. -/
theorem skills_fallback_counterexample :
    skillsSpecClaimed (pySplitSections "abc\nEXPERIENCE\ndef".data) = "def".data ∧
    (extract_experience_and_skills "abc\nEXPERIENCE\ndef".data []).2 = [] ∧
    skillsSpecClaimed (pySplitSections "abc\nEXPERIENCE\ndef".data) ≠
      (extract_experience_and_skills "abc\nEXPERIENCE\ndef".data []).2 := by decide

theorem pySpace_toLower {c : Char} (h : pySpace c = true) : Char.toLower c = c := by
  simp only [pySpace, Bool.or_eq_true, decide_eq_true_iff] at h
  rcases h with ((((rfl | rfl) | rfl) | rfl) | rfl) | rfl <;> decide

theorem pySpace_not_word {c : Char} (h : pySpace c = true) : isWordChar c = false := by
  simp only [pySpace, Bool.or_eq_true, decide_eq_true_iff] at h
  rcases h with ((((rfl | rfl) | rfl) | rfl) | rfl) | rfl <;> decide

theorem lowerS_all_space {t : Str} (h : ∀ c ∈ t, pySpace c = true) :
    ∀ c ∈ lowerS t, pySpace c = true := by
  intro c hc
  simp only [lowerS, List.mem_map] at hc
  obtain ⟨a, ha, rfl⟩ := hc
  rw [pySpace_toLower (h a ha)]
  exact h a ha

theorem hasSubCh_false_of {needle hay : Str} (hng : ∃ c ∈ needle, pySpace c = false)
    (hh : ∀ c ∈ hay, pySpace c = true) : hasSubCh needle hay = false := by
  by_contra hcon
  rw [Bool.not_eq_false] at hcon
  obtain ⟨s, u, hsu⟩ := (hasSubCh_iff _ _).mp hcon
  obtain ⟨c, hc, hcf⟩ := hng
  have hmem : c ∈ hay := by rw [← hsu]; simp [hc]
  rw [hh c hmem] at hcf
  cases hcf

theorem count_go_zero (tl : Str) (ks : List Str)
    (h : ∀ k ∈ ks, hasSubCh (lowerS k) tl = false) : count_go tl ks = (0, []) := by
  induction ks with
  | nil => rfl
  | cons k ks ih =>
    have hk := h k (by simp)
    simp only [count_go, ih (fun k' hk' => h k' (by simp [hk'])), hk, Bool.false_eq_true,
      if_false]

theorem matchSeq_wb_none {pat : List RElem} {prev : Option Char} {cs : Str}
    (hp : isWordOpt prev = false) (hcs : ∀ c ∈ cs, pySpace c = true) :
    matchSeq (.wb :: pat) prev cs = none := by
  have hwb : wordBoundary prev cs.head? = false := by
    unfold wordBoundary
    rw [hp]
    cases cs with
    | nil => rfl
    | cons c rest =>
      simp only [List.head?_cons, isWordOpt, pySpace_not_word (hcs c (by simp))]
      rfl
  simp [matchSeq, hwb]

theorem searchGo_none (m : Option Char → Str → Option Nat)
    (hm : ∀ prev cs, isWordOpt prev = false → (∀ c ∈ cs, pySpace c = true) → m prev cs = none)
    (cs : Str) :
    ∀ prev, isWordOpt prev = false → (∀ c ∈ cs, pySpace c = true) →
      searchGo m prev cs = none := by
  induction cs with
  | nil =>
    intro prev hp hcs
    simp [searchGo, hm prev [] hp hcs]
  | cons c rest ih =>
    intro prev hp hcs
    unfold searchGo
    rw [hm prev (c :: rest) hp hcs]
    exact ih (some c) (by simp [isWordOpt, pySpace_not_word (hcs c (by simp))])
      (fun x hx => hcs x (by simp [hx]))

theorem emailSearch_ws_none {t : Str} (h : ∀ c ∈ t, pySpace c = true) :
    emailSearch t = none :=
  searchGo_none _ (fun _ _ hp hcs => matchSeq_wb_none hp hcs) t none rfl h

theorem phoneSearch_ws_none {t : Str} (h : ∀ c ∈ t, pySpace c = true) :
    phoneSearch t = none := by
  refine searchGo_none _ (fun _ _ hp hcs => ?_) t none rfl h
  rw [show phonePattern1 = .wb :: _ from rfl, show phonePattern2 = .wb :: _ from rfl]
  rw [matchSeq_wb_none hp hcs, matchSeq_wb_none hp hcs]
  rfl

theorem pyStrip_ws_nil {t : Str} (h : ∀ c ∈ t, pySpace c = true) : pyStrip t = [] := by
  unfold pyStrip
  rw [List.dropWhile_eq_nil_iff.mpr (fun c hc => h c hc)]
  rfl

theorem headerAfterNl_ws_none {rest : Str} (h : ∀ c ∈ rest, pySpace c = true) :
    headerAfterNl rest = none := by
  unfold headerAfterNl
  rw [List.dropWhile_eq_nil_iff.mpr (fun c hc => h c hc)]
  rfl

theorem splitSecGoF_ws (fuel : Nat) (acc cs : Str) (h : ∀ c ∈ cs, pySpace c = true) :
    splitSecGoF fuel acc cs = [acc.reverse ++ cs] := by
  induction fuel generalizing acc cs with
  | zero =>
    cases cs with
    | nil => simp [splitSecGoF]
    | cons c rest => rfl
  | succ fuel ih =>
    cases cs with
    | nil => simp [splitSecGoF]
    | cons c rest =>
      have hrest : ∀ x ∈ rest, pySpace x = true := fun x hx => h x (by simp [hx])
      unfold splitSecGoF
      by_cases hc : c = '\n'
      · rw [if_pos hc, headerAfterNl_ws_none hrest, ih (c :: acc) rest hrest]
        simp
      · rw [if_neg hc, ih (c :: acc) rest hrest]
        simp

theorem pySplitSections_ws {t : Str} (h : ∀ c ∈ t, pySpace c = true) :
    pySplitSections t = [t] := by
  unfold pySplitSections
  rw [splitSecGoF_ws _ _ _ h]
  rfl

/-- Claim C10: `process_resume` signals a skip (`none`) exactly for the
empty extracted text; a non-empty all-whitespace text still yields a
record, with empty name, email, phone, experience and skills and keyword
count 0 (given keywords as `load_keywords` produces them: each contains a
non-whitespace character after lowercasing). -/
theorem whitespace_text_still_processed :
    (∀ f t kws, process_resume f t kws = none ↔ t = []) ∧
    (∀ f t kws, t ≠ [] → (∀ c ∈ t, pySpace c = true) →
      (∀ k ∈ kws, ∃ c ∈ lowerS k, pySpace c = false) →
      ∃ rec, process_resume f t kws = some rec ∧ rec.name = [] ∧ rec.email = [] ∧
        rec.phone = [] ∧ rec.experience = [] ∧ rec.skills = [] ∧
        rec.keyword_count = 0) := by
  constructor
  · intro f t kws
    cases t with
    | nil => simp [process_resume]
    | cons c rest => simp [process_resume]
  · intro f t kws hne hws hkw
    have hne' : t.isEmpty = false := by
      cases t with
      | nil => exact absurd rfl hne
      | cons _ _ => rfl
    have h1 : extract_contact_info t = ([], [], []) := by
      unfold extract_contact_info
      rw [emailSearch_ws_none hws, phoneSearch_ws_none hws, pyStrip_ws_nil hws]
      rfl
    have h2 : extract_experience_and_skills t kws = ([], []) := by
      unfold extract_experience_and_skills
      rw [pySplitSections_ws hws]
      rfl
    have h3 : count_relevant_keywords t kws = (0, []) := by
      unfold count_relevant_keywords
      exact count_go_zero _ _
        (fun k hk => hasSubCh_false_of (hkw k hk) (lowerS_all_space hws))
    refine ⟨⟨[], [], [], [], [], 0, [], false, f⟩, ?_, rfl, rfl, rfl, rfl, rfl, rfl⟩
    unfold process_resume
    rw [hne']
    dsimp only
    rw [h1, h2, h3]
    rfl

/-- Witness for C10 at a concrete whitespace-only text. -/
theorem whitespace_text_still_processed_witness :
    ∃ rec, process_resume [] [' ', '\n', '\t'] ["cook".data] = some rec ∧
      rec.name = [] ∧ rec.email = [] ∧ rec.phone = [] ∧ rec.experience = [] ∧
      rec.skills = [] ∧ rec.keyword_count = 0 :=
  whitespace_text_still_processed.2 [] [' ', '\n', '\t'] ["cook".data]
    (by decide) (by decide) (by decide)

end CvTriage
